import Mathlib

/-!
Verification of the attendance reshaping and derivation pipeline of
`MYPROJRCT/Dashboard.py` (Streamlit attendance monitor).

The script is a single top-level program acting on a pandas DataFrame.  We
shallowly embed the data-integrity core (schema handling, hours derivation,
duplicate resolution, reshaping, punctuality classification, filtering) as
executable Lean functions over explicit table structures:

* time strings are parsed to minutes since midnight (`parseTime`, modelling
  `pd.to_datetime(_, format='%I:%M %p', errors='coerce')`);
* hours are exact rationals, with two-decimal rounding made explicit
  (`round2`, modelling `.round(2)`; the float quantities involved are
  always at distance at least 1/6 of a hundredth from the rounding
  boundaries, so exact rational rounding agrees with the float rounding);
* missing values (`NaT`/`NaN`) are `Option.none`;
* the DataFrame is a structure with the identity columns, the day-indexed
  in/out string columns (suffixes kept as naturals), and row lists.
-/

namespace Attendance

/-! ### Character-level string helpers

Implemented structurally on `List Char` so that every definition reduces
inside the kernel (`decide`/`rfl` on concrete inputs). -/

/-- Split a character list on a separator character, keeping empty groups,
like Python `str.split(sep)` with a single-character separator. -/
def splitOnChar (sep : Char) : List Char → List (List Char)
  | [] => [[]]
  | c :: cs =>
    match splitOnChar sep cs with
    | [] => if c = sep then [[], []] else [[c]]
    | g :: gs => if c = sep then [] :: g :: gs else (c :: g) :: gs

/-- Numeric value of a decimal digit character. -/
def digitVal (c : Char) : Option Nat :=
  if '0' ≤ c ∧ c ≤ '9' then some (c.toNat - '0'.toNat) else none

/-- Read a non-empty all-digit character list as a natural number. -/
def digitsToNatAux : List Char → Nat → Option Nat
  | [], acc => some acc
  | c :: cs, acc =>
    match digitVal c with
    | some d => digitsToNatAux cs (acc * 10 + d)
    | none => none

/-- Read a non-empty all-digit character list as a natural number;
`none` on the empty list or on any non-digit character. -/
def digitsToNat : List Char → Option Nat
  | [] => none
  | c :: cs => digitsToNatAux (c :: cs) 0

/-- ASCII lower-casing of one character (Python `str.lower` restricted to
the ASCII letters that occur in this pipeline's data). -/
def lowerChar (c : Char) : Char :=
  if 'A' ≤ c ∧ c ≤ 'Z' then Char.ofNat (c.toNat + 32) else c

/-- ASCII lower-casing of a string (`str.lower()` in the filter block). -/
def strLower (s : String) : String := ⟨s.data.map lowerChar⟩

/-! ### Time parsing and hours derivation (Dashboard.py lines 119-125) -/

/-- Parse a wall-clock time in the fixed 12-hour format `%I:%M %p`
(`pd.to_datetime(_, format='%I:%M %p', errors='coerce')`): hour `1..12` in
one or two digits, minute `0..59` in one or two digits, then a space and a
case-insensitive `AM`/`PM` marker.  Result is minutes since midnight;
`none` models the coerced `NaT` on parse failure. -/
def parseTime (s : String) : Option Nat :=
  match splitOnChar ' ' s.data with
  | [hm, ap] =>
    match splitOnChar ':' hm with
    | [hs, ms] =>
      match digitsToNat hs, digitsToNat ms with
      | some hv, some mv =>
        if 1 ≤ hv ∧ hv ≤ 12 ∧ mv ≤ 59 ∧ hs.length ≤ 2 ∧ ms.length ≤ 2 then
          match ap.map lowerChar with
          | ['a', 'm'] => some ((hv % 12) * 60 + mv)
          | ['p', 'm'] => some ((hv % 12 + 12) * 60 + mv)
          | _ => none
        else none
      | _, _ => none
    | _ => none
  | _ => none

/-!
#### Representation of derived hours

The script stores each derived hours value as a float rounded to two
decimal places (`.round(2)`).  A float rounded to two decimals is exactly
a rational of the form `z / 100` with `z : ℤ`, so the embedding stores the
integer `z` of hundredths of an hour.  This encoding is lossless in both
directions, integer arithmetic reduces inside the kernel, and the two
comparisons the pipeline performs on these values (`>= 8` hours and the
ordering of row totals) translate to `>= 800` hundredths and the identical
ordering of summed hundredths.  The lemma `hundredths_eq_round` ties the
integer computation back to exact rational rounding, and `round2` states
two-decimal rounding on ℚ for the specification-facing theorems. -/

/-- Hundredths of an hour for a signed difference of `m` minutes: the
nearest integer to `m / 60 * 100 = 5 * m / 3`, computed by integer
euclidean division (`⌊x + 1/2⌋` as `(10 * m + 3) / 6`).  `5 * m / 3` is
never a half-integer, so nearest-integer rounding is unambiguous here and
any tie convention (numpy rounds halves to even) is modelled faithfully. -/
def hundredths (m : ℤ) : ℤ := (2 * (5 * m) + 3) / 6

/-- Round a rational to two decimal places (`Series.round(2)`), stated
with Mathlib's `round`; used only in specification-facing statements. -/
def round2 (q : ℚ) : ℚ := ((round (q * 100) : ℤ) : ℚ) / 100

/-- `hundredths` computes exactly the two-decimal rounding of the
fractional-hours value `m / 60`. -/
theorem hundredths_eq_round (m : ℤ) :
    ((hundredths m : ℤ) : ℚ) / 100 = round2 ((m : ℚ) / 60) := by
  have h60 : ((m : ℚ) / 60) * 100 = (5 * m : ℤ) / (3 : ℚ) := by
    push_cast
    ring
  have hround : round (((m : ℚ) / 60) * 100) = (2 * (5 * m) + 3) / 6 := by
    rw [round_eq, h60]
    have : ((5 * m : ℤ) : ℚ) / 3 + 1 / 2 = ((2 * (5 * m) + 3 : ℤ) : ℚ) / ((6 : ℕ) : ℚ) := by
      push_cast
      ring
    rw [this, Rat.floor_intCast_div_natCast]
    norm_num
  unfold hundredths round2
  rw [hround]

/-- Derived hours cell for one in/out pair of time strings
(Dashboard.py lines 121-125): `NaT` propagates to `NaN` (`none`), and on
success the signed difference `out − in` in fractional hours is rounded
to two decimals (here: hundredths of an hour).  No day-rollover
correction is applied. -/
def hoursFor (inS outS : String) : Option ℤ :=
  match parseTime inS, parseTime outS with
  | some a, some b => some (hundredths ((b : ℤ) - (a : ℤ)))
  | _, _ => none

example : parseTime "09:00 AM" = some 540 := by decide
example : parseTime "02:00 PM" = some 840 := by decide
example : parseTime "12:30 am" = some 30 := by decide
example : parseTime "13:00 PM" = none := by decide
example : parseTime "oops" = none := by decide
example : hoursFor "09:00 AM" "05:30 PM" = some 850 := by decide
example : hoursFor "02:00 PM" "09:00 AM" = some (-500) := by decide
example : hoursFor "09:00 AM" "09:20 AM" = some 33 := by decide

/-! ### Stable sorting and first-occurrence deduplication

`DataFrame.sort_values` sorts by a key; for a descending sort pandas
reverses the input, arg-sorts ascending, and reverses the result, so rows
with equal keys keep their original relative order (a stable descending
sort; for attendance-sheet-sized frames numpy's small-array insertion
sort is stable).  We model it as a stable insertion sort parameterised by
a boolean comparison `le x a = true` meaning "`x` may come no later than
`a`".  `DataFrame.drop_duplicates(keep='first')` keeps the first
occurrence of each key; `dedupKey` models it for an arbitrary key
function (the whole row for exact-duplicate removal, the employee
identifier for duplicate resolution). -/

def insertBy {α : Type} (le : α → α → Bool) (x : α) : List α → List α
  | [] => [x]
  | a :: l => if le x a then x :: a :: l else a :: insertBy le x l

def sortBy {α : Type} (le : α → α → Bool) : List α → List α
  | [] => []
  | x :: l => insertBy le x (sortBy le l)

def dedupKeyAux {α β : Type} [DecidableEq β] (key : α → β) : List β → List α → List α
  | _, [] => []
  | seen, r :: rs =>
    if key r ∈ seen then dedupKeyAux key seen rs
    else r :: dedupKeyAux key (key r :: seen) rs

/-- `drop_duplicates(keep='first')` generalised over a key function:
keeps the first row carrying each key value, in input order. -/
def dedupKey {α β : Type} [DecidableEq β] (key : α → β) (l : List α) : List α :=
  dedupKeyAux key [] l

/-- Merge a new candidate `x` with the best element found so far: prefer
`x` exactly when the comparison lets it come no later. -/
def pickFirst {α : Type} (le : α → α → Bool) (x : α) : Option α → Option α
  | none => some x
  | some y => if le x y then some x else some y

/-- First element of `sortBy le l` satisfying `p` (see `find?_sortBy`):
the best element under `le` among those satisfying `p`, earliest first on
ties. -/
def firstBest {α : Type} (le : α → α → Bool) (p : α → Bool) : List α → Option α
  | [] => none
  | x :: l => if p x then pickFirst le x (firstBest le p l) else firstBest le p l

section SortLemmas

variable {α : Type} {le : α → α → Bool} {p : α → Bool}

theorem insertBy_perm (x : α) (l : List α) :
    List.Perm (insertBy le x l) (x :: l) := by
  induction l with
  | nil => exact List.Perm.refl _
  | cons a l ih =>
    by_cases h : le x a
    · simp [insertBy, h]
    · simp only [insertBy, h, if_false, Bool.false_eq_true]
      exact (ih.cons a).trans (List.Perm.swap x a l)

theorem sortBy_perm (l : List α) : List.Perm (sortBy le l) l := by
  induction l with
  | nil => exact List.Perm.refl _
  | cons x l ih => exact (insertBy_perm x (sortBy le l)).trans (ih.cons x)

theorem pairwise_insertBy (htot : ∀ a b, le a b = true ∨ le b a = true)
    (htrans : ∀ a b c, le a b = true → le b c = true → le a c = true) (x : α) :
    ∀ {l : List α}, l.Pairwise (fun a b => le a b = true) →
      (insertBy le x l).Pairwise (fun a b => le a b = true) := by
  intro l
  induction l with
  | nil => intro _; simp [insertBy]
  | cons a l ih =>
    intro h
    rw [List.pairwise_cons] at h
    by_cases hxa : le x a
    · simp only [insertBy, hxa, if_true]
      refine List.pairwise_cons.mpr ⟨?_, List.pairwise_cons.mpr h⟩
      intro b hb
      rcases List.mem_cons.mp hb with rfl | hb
      · exact hxa
      · exact htrans x a b hxa (h.1 b hb)
    · simp only [insertBy, hxa, if_false, Bool.false_eq_true]
      refine List.pairwise_cons.mpr ⟨?_, ih h.2⟩
      intro b hb
      have hb' := (insertBy_perm x l).mem_iff.mp hb
      rcases List.mem_cons.mp hb' with rfl | hb''
      · rcases htot a b with hab | hba
        · exact hab
        · exact absurd hba hxa
      · exact h.1 b hb''

theorem sortBy_pairwise (htot : ∀ a b, le a b = true ∨ le b a = true)
    (htrans : ∀ a b c, le a b = true → le b c = true → le a c = true)
    (l : List α) : (sortBy le l).Pairwise (fun a b => le a b = true) := by
  induction l with
  | nil => exact List.Pairwise.nil
  | cons x l ih => exact pairwise_insertBy htot htrans x ih

theorem sortBy_of_pairwise {l : List α}
    (h : l.Pairwise (fun a b => le a b = true)) : sortBy le l = l := by
  induction l with
  | nil => rfl
  | cons x l ih =>
    rw [List.pairwise_cons] at h
    rw [sortBy, ih h.2]
    cases l with
    | nil => rfl
    | cons a l' =>
      have hxa : le x a = true := h.1 a (List.mem_cons_self a l')
      simp [insertBy, hxa]

theorem find?_insertBy_of_neg {x : α} (hx : p x = false) (l : List α) :
    (insertBy le x l).find? p = l.find? p := by
  induction l with
  | nil => simp [insertBy, hx]
  | cons a l ih =>
    by_cases hxa : le x a
    · simp [insertBy, hxa, List.find?_cons, hx]
    · by_cases hpa : p a
      · simp [insertBy, hxa, List.find?_cons, hpa]
      · simp only [insertBy, hxa, if_false, Bool.false_eq_true, List.find?_cons, hpa]
        exact ih

theorem find?_insertBy_of_pos {x : α}
    (htrans : ∀ a b c, le a b = true → le b c = true → le a c = true)
    (hx : p x = true) :
    ∀ {l : List α}, l.Pairwise (fun a b => le a b = true) →
      (insertBy le x l).find? p = pickFirst le x (l.find? p) := by
  intro l
  induction l with
  | nil => intro _; simp [insertBy, List.find?_cons, hx, pickFirst]
  | cons a l ih =>
    intro h
    rw [List.pairwise_cons] at h
    by_cases hxa : le x a
    · simp only [insertBy, hxa, if_true, List.find?_cons, hx]
      by_cases hpa : p a
      · simp [hpa, pickFirst, hxa]
      · simp only [hpa, Bool.false_eq_true, if_false]
        cases hfl : l.find? p with
        | none => simp [pickFirst]
        | some y =>
          have hy : y ∈ l := List.mem_of_find?_eq_some hfl
          have hxy : le x y := htrans x a y hxa (h.1 y hy)
          simp [pickFirst, hxy]
    · simp only [insertBy, hxa, if_false, Bool.false_eq_true, List.find?_cons]
      by_cases hpa : p a
      · simp [hpa, pickFirst, hxa]
      · simp only [hpa, Bool.false_eq_true, if_false]
        exact ih h.2

theorem find?_sortBy (htot : ∀ a b, le a b = true ∨ le b a = true)
    (htrans : ∀ a b c, le a b = true → le b c = true → le a c = true) :
    ∀ l : List α, (sortBy le l).find? p = firstBest le p l
  | [] => rfl
  | x :: l => by
    rw [sortBy, firstBest]
    by_cases hx : p x
    · rw [find?_insertBy_of_pos htrans hx (sortBy_pairwise htot htrans l),
        find?_sortBy htot htrans l, if_pos hx]
    · rw [find?_insertBy_of_neg (by simpa using hx), find?_sortBy htot htrans l,
        if_neg (by simpa using hx)]

theorem pickFirst_ne_none {x : α} (o : Option α) : pickFirst le x o ≠ none := by
  cases o with
  | none => simp [pickFirst]
  | some y => by_cases h : le x y <;> simp [pickFirst, h]

theorem firstBest_eq_none :
    ∀ {l : List α}, firstBest le p l = none → ∀ r ∈ l, p r = false := by
  intro l
  induction l with
  | nil => intro _ r hr; cases hr
  | cons x l ih =>
    intro h r hr
    rw [firstBest] at h
    by_cases hx : p x
    · rw [if_pos hx] at h
      exact absurd h (pickFirst_ne_none _)
    · rw [if_neg hx] at h
      rcases List.mem_cons.mp hr with rfl | hr'
      · simpa using hx
      · exact ih h r hr'

theorem firstBest_spec (htot : ∀ a b, le a b = true ∨ le b a = true)
    (htrans : ∀ a b c, le a b = true → le b c = true → le a c = true) :
    ∀ {l : List α} {k : α}, firstBest le p l = some k →
      p k = true ∧ (∀ r ∈ l, p r = true → le k r = true) ∧
        ∃ l₁ l₂, l = l₁ ++ k :: l₂ ∧ ∀ r ∈ l₁, p r = true → le r k = false := by
  intro l
  induction l with
  | nil => intro k h; cases h
  | cons x l ih =>
    intro k h
    rw [firstBest] at h
    by_cases hx : p x
    · rw [if_pos hx] at h
      cases hfb : firstBest le p l with
      | none =>
        rw [hfb] at h
        simp only [pickFirst] at h
        cases h
        refine ⟨hx, ?_, [], l, rfl, by intro r hr; cases hr⟩
        intro r hr hpr
        rcases List.mem_cons.mp hr with rfl | hr'
        · rcases htot r r with h' | h' <;> exact h'
        · exact absurd hpr (by simp [firstBest_eq_none hfb r hr'])
      | some y =>
        rw [hfb] at h
        obtain ⟨hpy, hbest, l₁, l₂, hdec, hstrict⟩ := ih hfb
        by_cases hxy : le x y
        · simp only [pickFirst, hxy, if_true] at h
          cases h
          refine ⟨hx, ?_, [], l, rfl, by intro r hr; cases hr⟩
          intro r hr hpr
          rcases List.mem_cons.mp hr with rfl | hr'
          · rcases htot r r with h' | h' <;> exact h'
          · exact htrans x y r hxy (hbest r hr' hpr)
        · simp only [pickFirst, hxy, Bool.false_eq_true, if_false] at h
          cases h
          refine ⟨hpy, ?_, x :: l₁, l₂, by rw [hdec, List.cons_append], ?_⟩
          · intro r hr hpr
            rcases List.mem_cons.mp hr with rfl | hr'
            · rcases htot k r with h' | h'
              · exact h'
              · exact absurd h' (by simpa using hxy)
            · exact hbest r hr' hpr
          · intro r hr hpr
            rcases List.mem_cons.mp hr with rfl | hr'
            · simpa using hxy
            · exact hstrict r hr' hpr
    · rw [if_neg hx] at h
      obtain ⟨hpk, hbest, l₁, l₂, hdec, hstrict⟩ := ih h
      refine ⟨hpk, ?_, x :: l₁, l₂, by rw [hdec, List.cons_append], ?_⟩
      · intro r hr hpr
        rcases List.mem_cons.mp hr with rfl | hr'
        · exact absurd hpr (by simpa using hx)
        · exact hbest r hr' hpr
      · intro r hr hpr
        rcases List.mem_cons.mp hr with rfl | hr'
        · exact absurd hpr (by simpa using hx)
        · exact hstrict r hr' hpr

end SortLemmas

section DedupLemmas

variable {α β : Type} [DecidableEq β] {key : α → β}

theorem dedupKeyAux_sublist (seen : List β) :
    ∀ l : List α, List.Sublist (dedupKeyAux key seen l) l := by
  intro l
  induction l generalizing seen with
  | nil => exact List.Sublist.refl _
  | cons r rs ih =>
    rw [dedupKeyAux]
    by_cases h : key r ∈ seen
    · rw [if_pos h]
      exact (ih seen).cons r
    · rw [if_neg h]
      exact (ih (key r :: seen)).cons₂ r

theorem mem_dedupKeyAux {seen : List β} {r : α} :
    ∀ {l : List α}, r ∈ dedupKeyAux key seen l → key r ∉ seen := by
  intro l
  induction l generalizing seen with
  | nil => intro h; cases h
  | cons a rs ih =>
    intro h
    rw [dedupKeyAux] at h
    by_cases ha : key a ∈ seen
    · rw [if_pos ha] at h
      exact ih h
    · rw [if_neg ha] at h
      rcases List.mem_cons.mp h with rfl | h'
      · exact ha
      · intro hmem
        exact ih h' (List.mem_cons_of_mem _ hmem)

theorem dedupKeyAux_keys_nodup (seen : List β) :
    ∀ l : List α, ((dedupKeyAux key seen l).map key).Nodup := by
  intro l
  induction l generalizing seen with
  | nil => exact List.nodup_nil
  | cons r rs ih =>
    rw [dedupKeyAux]
    by_cases h : key r ∈ seen
    · rw [if_pos h]; exact ih seen
    · rw [if_neg h]
      rw [List.map_cons, List.nodup_cons]
      refine ⟨?_, ih (key r :: seen)⟩
      intro hmem
      obtain ⟨s, hs, hks⟩ := List.mem_map.mp hmem
      exact mem_dedupKeyAux hs (by rw [hks]; exact List.mem_cons_self _ _)

theorem dedupKeyAux_eq_self :
    ∀ {l : List α} {seen : List β}, (∀ x ∈ l, key x ∉ seen) →
      (l.map key).Nodup → dedupKeyAux key seen l = l := by
  intro l
  induction l with
  | nil => intro seen _ _; rfl
  | cons r rs ih =>
    intro seen hseen hnodup
    rw [List.map_cons, List.nodup_cons] at hnodup
    rw [dedupKeyAux, if_neg (hseen r (List.mem_cons_self r rs))]
    congr 1
    refine ih ?_ hnodup.2
    intro x hx
    rw [List.mem_cons]
    rintro (hkx | hkx)
    · exact hnodup.1 (hkx ▸ List.mem_map_of_mem key hx)
    · exact hseen x (List.mem_cons_of_mem r hx) hkx

theorem dedupKey_sublist (l : List α) : List.Sublist (dedupKey key l) l :=
  dedupKeyAux_sublist [] l

theorem dedupKey_keys_nodup (l : List α) : ((dedupKey key l).map key).Nodup :=
  dedupKeyAux_keys_nodup [] l

theorem dedupKey_eq_self {l : List α} (h : (l.map key).Nodup) : dedupKey key l = l :=
  dedupKeyAux_eq_self (by intro x _ hx; cases hx) h

theorem filter_dedupKeyAux (e : β) :
    ∀ {l : List α} {seen : List β}, e ∉ seen →
      (dedupKeyAux key seen l).filter (fun r => decide (key r = e)) =
        (l.filter (fun r => decide (key r = e))).take 1 := by
  intro l
  induction l with
  | nil => intro seen _; rfl
  | cons r rs ih =>
    intro seen he
    by_cases hkr : key r = e
    · have hrseen : key r ∉ seen := by rw [hkr]; exact he
      rw [dedupKeyAux, if_neg hrseen,
        List.filter_cons_of_pos (by simpa using hkr),
        List.filter_cons_of_pos (by simpa using hkr)]
      have hnil : (dedupKeyAux key (key r :: seen) rs).filter
          (fun a => decide (key a = e)) = [] := by
        rw [List.filter_eq_nil_iff]
        intro a ha
        simp only [decide_eq_true_eq]
        intro hae
        exact mem_dedupKeyAux ha (by rw [hae, ← hkr]; exact List.mem_cons_self _ _)
      rw [hnil, List.take_succ_cons, List.take_zero]
    · rw [List.filter_cons_of_neg (by simpa using hkr)]
      by_cases hrseen : key r ∈ seen
      · rw [dedupKeyAux, if_pos hrseen]
        exact ih he
      · rw [dedupKeyAux, if_neg hrseen,
          List.filter_cons_of_neg (by simpa using hkr)]
        refine ih ?_
        rw [List.mem_cons]
        rintro (h' | h')
        · exact hkr h'.symm
        · exact he h'

theorem filter_dedupKey (e : β) (l : List α) :
    (dedupKey key l).filter (fun r => decide (key r = e)) =
      (l.filter (fun r => decide (key r = e))).take 1 :=
  filter_dedupKeyAux e (by intro h; cases h)

theorem dedupKey_ne_nil {l : List α} (h : l ≠ []) : dedupKey key l ≠ [] := by
  cases l with
  | nil => exact absurd rfl h
  | cons r rs =>
    rw [dedupKey, dedupKeyAux, if_neg (by intro h'; cases h')]
    intro h'
    cases h'

end DedupLemmas

/-! ### The attendance table model (Dashboard.py lines 103-159)

The uploaded sheet has the four identity columns plus day-indexed pairs
`in_k` / `out_k` of string-typed time columns.  Column names are carried
as their numeric day-index suffixes: `inDays` lists the suffixes of the
`in_`-prefixed columns in their left-to-right order in the frame, and
each row stores its cell values positionally aligned with those lists. -/

structure Row where
  employee_id : String
  employee_gender : String
  employee_resident : String
  employee_department : String
  inVals : List String
  outVals : List String
deriving DecidableEq

structure Table where
  inDays : List Nat
  outDays : List Nat
  rows : List Row
deriving DecidableEq

/-- A row after the hours-derivation loop: the raw columns plus one
derived hours cell per created `hours_` column. -/
structure DRow where
  employee_id : String
  employee_gender : String
  employee_resident : String
  employee_department : String
  inVals : List String
  outVals : List String
  hours : List (Option ℤ)
deriving DecidableEq

/-- A table after the hours-derivation loop; `hoursDays` lists the day
suffixes of the created `hours_` columns in creation order. -/
structure DTable where
  hoursDays : List Nat
  rows : List DRow
deriving DecidableEq

/-- Per-row effect of the derivation loop
(`for in_col, out_col in zip(in_cols, out_cols)` …): the in and out
columns are paired positionally by `zip`, and each pair contributes one
hours cell computed from that row's two cell values. -/
def deriveRow (r : Row) : DRow :=
  { employee_id := r.employee_id
    employee_gender := r.employee_gender
    employee_resident := r.employee_resident
    employee_department := r.employee_department
    inVals := r.inVals
    outVals := r.outVals
    hours := (r.inVals.zip r.outVals).map fun p => hoursFor p.1 p.2 }

/-- The derivation loop over the whole frame (lines 116-125): pairs are
`zip(in_cols, out_cols)` in column order (truncating at the shorter
list), and each created column is named by replacing the `in_` marker of
the in-column, i.e. it carries the in-column's suffix. -/
def deriveTable (t : Table) : DTable :=
  { hoursDays := (t.inDays.zip t.outDays).map Prod.fst
    rows := t.rows.map deriveRow }

/-- Helper total used by the duplicate resolver (line 140):
`df[hours cols].sum(axis=1)` sums the derived hours columns with `NaN`
treated as `0`.  Computed on the fly; the script materialises it as a
`total_hours` column and drops it again at line 142, so it never appears
in the output schema. -/
def rowTotal (r : DRow) : ℤ := (r.hours.map (fun h => h.getD 0)).sum

/-- Comparison used by `sort_values('total_hours', ascending=False)`:
row `a` may come no later than row `b` when its total is at least `b`'s. -/
def leTotal (a b : DRow) : Bool := decide (rowTotal b ≤ rowTotal a)

/-- The duplicate-handling block (lines 132-142): drop exact full-row
duplicates keeping the first, stable-sort descending by total derived
hours, then keep the first (= maximal-total) row per employee identifier
(`drop_duplicates(subset=['employee_id'], keep='first')`). -/
def dedupRows (l : List DRow) : List DRow :=
  dedupKey (fun r => r.employee_id) (sortBy leTotal (dedupKey (fun r => r) l))

def dedupTable (t : DTable) : DTable :=
  { hoursDays := t.hoursDays, rows := dedupRows t.rows }

/-- Punctuality classification (line 159):
`df_long['hours_worked'] >= 8`, i.e. at least 800 hundredths; the pandas
comparison yields `False` on `NaN`, so an absent value is not punctual. -/
def isPunctual (h : Option ℤ) : Bool :=
  match h with
  | some z => decide (800 ≤ z)
  | none => false

/-- One long-format fact row produced by the reshaping block
(lines 150-159). -/
structure Fact where
  employee_id : String
  employee_gender : String
  employee_resident : String
  employee_department : String
  day_num : Nat
  date : ℤ
  hours_worked : Option ℤ
  is_punctual : Bool
deriving DecidableEq

def natLe (a b : Nat) : Bool := decide (a ≤ b)

/-- The reshaping block (lines 150-159): `day_cols` is the list of
`hours_` columns sorted by numeric suffix; `melt` emits, for each value
column in that order, one row per frame row carrying the four identity
columns; `day_num` re-extracts the suffix, the calendar date is
`start_date + (day_num - 1)` days (dates are day numbers `ℤ` here), and
`is_punctual` compares the melted hours value with the 8-hour
threshold. -/
def factsFor (start : ℤ) (t : DTable) : List Fact :=
  (sortBy natLe t.hoursDays).flatMap fun d =>
    t.rows.map fun r =>
      let h := ((t.hoursDays.zip r.hours).lookup d).getD none
      { employee_id := r.employee_id
        employee_gender := r.employee_gender
        employee_resident := r.employee_resident
        employee_department := r.employee_department
        day_num := d
        date := start + (d : ℤ) - 1
        hours_worked := h
        is_punctual := isPunctual h }

/-- The sidebar filter application (lines 191-201): always filter by the
date range; filter by exact employee identifier unless "All"; filter by
case-insensitively lower-cased residency unless "All"; filter by exact
department membership unless the department selection is empty (an empty
multiselect skips the filter entirely). -/
def applyFilters (d0 d1 : ℤ) (selEmp selRes : String) (selDeps : List String)
    (facts : List Fact) : List Fact :=
  let f1 := facts.filter fun r => decide (d0 ≤ r.date ∧ r.date ≤ d1)
  let f2 := if selEmp = "All" then f1
    else f1.filter fun r => decide (r.employee_id = selEmp)
  let f3 := if selRes = "All" then f2
    else f2.filter fun r => decide (strLower r.employee_resident = strLower selRes)
  if selDeps = [] then f3
  else f3.filter fun r => decide (r.employee_department ∈ selDeps)

example :
    factsFor 0 (dedupTable (deriveTable
      { inDays := [1], outDays := [1],
        rows := [{ employee_id := "E1", employee_gender := "M",
                   employee_resident := "Local", employee_department := "IT",
                   inVals := ["09:00 AM"], outVals := ["05:30 PM"] }] })) =
      [{ employee_id := "E1", employee_gender := "M",
         employee_resident := "Local", employee_department := "IT",
         day_num := 1, date := 0, hours_worked := some 850,
         is_punctual := true }] := by decide

/-! ### Derivation-level claims -/

theorem hoursFor_eq_none_iff (inS outS : String) :
    hoursFor inS outS = none ↔ (parseTime inS = none ∨ parseTime outS = none) := by
  cases hpi : parseTime inS <;> cases hpo : parseTime outS <;> simp [hoursFor, hpi, hpo]

theorem hoursFor_eq_some (inS outS : String) {z : ℤ} (h : hoursFor inS outS = some z) :
    ∃ a b : Nat, parseTime inS = some a ∧ parseTime outS = some b ∧
      z = hundredths ((b : ℤ) - (a : ℤ)) := by
  cases hpi : parseTime inS <;> cases hpo : parseTime outS <;>
    rw [hoursFor, hpi, hpo] at h
  · cases h
  · cases h
  · cases h
  · exact ⟨_, _, rfl, rfl, (Option.some.injEq _ _ ▸ h).symm⟩

/-- C2 counterexample: with `in = "03:00 PM"` and `out = "09:00 AM"` both
endpoints parse, yet the derived hours value is `some (-600)`, i.e.
`-6.00` hours: defined and strictly negative, where the claim demands it
be absent (and in particular never negative). -/
theorem c2_counterexample :
    (deriveRow { employee_id := "E2", employee_gender := "M",
                 employee_resident := "Local", employee_department := "HR",
                 inVals := ["03:00 PM"], outVals := ["09:00 AM"] }).hours
        = [some (-600)] ∧
      ((-600 : ℤ) : ℚ) / 100 < 0 ∧
      parseTime "03:00 PM" = some 900 ∧ parseTime "09:00 AM" = some 540 := by
  refine ⟨by decide, by norm_num, by decide, by decide⟩

/-- C2 (amended): for every cell, the derived hours value is absent
exactly when an endpoint fails to parse; when defined it is exactly the
two-decimal rounding of the signed difference `out − in` in fractional
hours — always a rounded value, but negative whenever the out time parses
earlier than the in time (no absence and no clamping in that case). -/
theorem c2_amended_rounded_or_absent (inS outS : String) :
    (hoursFor inS outS = none ↔ (parseTime inS = none ∨ parseTime outS = none)) ∧
    (∀ z : ℤ, hoursFor inS outS = some z →
      ∃ a b : Nat, parseTime inS = some a ∧ parseTime outS = some b ∧
        (z : ℚ) / 100 = round2 ((((b : ℤ) - (a : ℤ)) : ℚ) / 60)) := by
  refine ⟨hoursFor_eq_none_iff inS outS, ?_⟩
  intro z hz
  obtain ⟨a, b, hpa, hpb, hzv⟩ := hoursFor_eq_some inS outS hz
  refine ⟨a, b, hpa, hpb, ?_⟩
  rw [hzv, hundredths_eq_round ((b : ℤ) - (a : ℤ))]
  congr 1
  push_cast
  ring

/-- Witness for C2 (amended) at `in = "01:00 PM"`, `out = "02:30 PM"`:
the derived cell is `some 150` (1.50 hours) and the theorem applies. -/
theorem c2_amended_witness :
    hoursFor "01:00 PM" "02:30 PM" = some 150 ∧
    ∃ a b : Nat, parseTime "01:00 PM" = some a ∧ parseTime "02:30 PM" = some b ∧
      ((150 : ℤ) : ℚ) / 100 = round2 ((((b : ℤ) - (a : ℤ)) : ℚ) / 60) :=
  ⟨by decide, (c2_amended_rounded_or_absent "01:00 PM" "02:30 PM").2 150 (by decide)⟩

/-- C3: a long-format fact row is punctual if and only if its hours value
is defined and at least 8.0 hours (800 hundredths); rows with absent
hours are not punctual. -/
theorem c3_punctual_iff_defined_ge_8 (start : ℤ) (t : DTable) (f : Fact)
    (hf : f ∈ factsFor start t) :
    f.is_punctual = true ↔
      ∃ z : ℤ, f.hours_worked = some z ∧ (8 : ℚ) ≤ (z : ℚ) / 100 := by
  obtain ⟨d, _, hf'⟩ := List.mem_flatMap.mp hf
  obtain ⟨r, _, rfl⟩ := List.mem_map.mp hf'
  show isPunctual (((t.hoursDays.zip r.hours).lookup d).getD none) = true ↔ _
  cases hv : ((t.hoursDays.zip r.hours).lookup d).getD none with
  | none => simp [isPunctual]
  | some z =>
    have hcast : (8 : ℚ) ≤ (z : ℚ) / 100 ↔ 800 ≤ z := by
      rw [le_div_iff₀ (by norm_num : (0 : ℚ) < 100)]
      norm_num
      exact Int.cast_le
    simp only [isPunctual, decide_eq_true_eq, Option.some.injEq]
    constructor
    · intro h8
      exact ⟨z, rfl, hcast.mpr h8⟩
    · rintro ⟨z', hz', h8⟩
      cases hz'
      exact hcast.mp h8

/-- Concrete one-row derived table used by the C3 witness. -/
def dtC3 : DTable :=
  { hoursDays := [1]
    rows := [{ employee_id := "E1", employee_gender := "M"
               employee_resident := "Local", employee_department := "IT"
               inVals := ["09:00 AM"], outVals := ["05:30 PM"]
               hours := [some 850] }] }

/-- The single fact produced from `dtC3`. -/
def factC3 : Fact :=
  { employee_id := "E1", employee_gender := "M"
    employee_resident := "Local", employee_department := "IT"
    day_num := 1, date := 0, hours_worked := some 850, is_punctual := true }

/-- Witness for C3 on a concrete one-row table: the produced fact is
punctual and its hours value is 8.50 hours. -/
theorem c3_witness :
    factC3 ∈ factsFor 0 dtC3 ∧
    (factC3.is_punctual = true ↔
      ∃ z : ℤ, factC3.hours_worked = some z ∧ (8 : ℚ) ≤ (z : ℚ) / 100) :=
  ⟨by decide, c3_punctual_iff_defined_ge_8 0 dtC3 factC3 (by decide)⟩

/-- C6: when either endpoint of pair `i` fails to parse, the derived cell
for that row and day is absent (`some none`: the column exists, the value
is `NaN`) — not zero and not an error — while every cell of every row is
still computed from its own pair by the same total function, and the
derivation maps every row of the table. -/
theorem c6_parse_failure_is_local (t : Table) (r : Row) (i : Nat)
    (inS outS : String)
    (hin : r.inVals[i]? = some inS) (hout : r.outVals[i]? = some outS)
    (hfail : parseTime inS = none ∨ parseTime outS = none) :
    (deriveRow r).hours[i]? = some none ∧
    (∀ r' : Row, ∀ j : Nat,
      (deriveRow r').hours[j]? =
        ((r'.inVals.zip r'.outVals)[j]?).map fun p => hoursFor p.1 p.2) ∧
    (deriveTable t).rows.length = t.rows.length := by
  have hcell : ∀ r' : Row, ∀ j : Nat,
      (deriveRow r').hours[j]? =
        ((r'.inVals.zip r'.outVals)[j]?).map fun p => hoursFor p.1 p.2 := by
    intro r' j
    show ((r'.inVals.zip r'.outVals).map fun p => hoursFor p.1 p.2)[j]? = _
    exact List.getElem?_map ..
  refine ⟨?_, hcell, by simp [deriveTable]⟩
  have hz : (r.inVals.zip r.outVals)[i]? = some (inS, outS) := by
    rw [List.getElem?_zip_eq_some]
    exact ⟨hin, hout⟩
  rw [hcell r i, hz]
  have hnone : hoursFor inS outS = none := (hoursFor_eq_none_iff inS outS).mpr hfail
  simp [hnone]

/-- Concrete row used by the C6 witness: its second out time is the
unparseable string `"late"`. -/
def rowC6 : Row :=
  { employee_id := "E6", employee_gender := "F"
    employee_resident := "Local", employee_department := "IT"
    inVals := ["09:00 AM", "09:00 AM"], outVals := ["05:00 PM", "late"] }

/-- Concrete table used by the C6 witness. -/
def tblC6 : Table := { inDays := [1, 2], outDays := [1, 2], rows := [rowC6] }

/-- Witness for C6: on `rowC6` the second cell is absent while the first
cell is still derived normally (8.00 hours). -/
theorem c6_witness :
    ((deriveRow rowC6).hours[1]? = some none ∧
      (∀ r' : Row, ∀ j : Nat,
        (deriveRow r').hours[j]? =
          ((r'.inVals.zip r'.outVals)[j]?).map fun p => hoursFor p.1 p.2) ∧
      (deriveTable tblC6).rows.length = tblC6.rows.length) ∧
    (deriveRow rowC6).hours[0]? = some (some 800) :=
  ⟨c6_parse_failure_is_local tblC6 rowC6 1 "09:00 AM" "late"
      (by decide) (by decide) (Or.inr (by decide)),
    by decide⟩

/-- Concrete row and tables for C8: `rowC8` has two in columns and two
out columns; in `tblC8mix` the out-column suffixes appear in order
`[2, 1]` (columns laid out `in_1, in_2, out_2, out_1`), while in
`tblC8par` both suffix sequences are `[1, 2]`. -/
def rowC8 : Row :=
  { employee_id := "E8", employee_gender := "M"
    employee_resident := "Local", employee_department := "IT"
    inVals := ["09:00 AM", "10:00 AM"], outVals := ["06:00 PM", "05:00 PM"] }

def tblC8mix : Table := { inDays := [1, 2], outDays := [2, 1], rows := [rowC8] }

def tblC8par : Table := { inDays := [1, 2], outDays := [1, 2], rows := [rowC8] }

/-- C8 counterexample: in `tblC8mix` the columns are laid out
`in_1, in_2, out_2, out_1`, so the created `hours_1` column is computed
from the positional pair `(in_1, out_2)`: the code derives 9.00 hours for
day 1, while the identical-day-index pair `(in_1, out_1)` gives 8.00 —
the derived column for day 1 is not computed from `(in_1, out_1)`,
refuting the "regardless of the order" part of the claim. -/
theorem c8_counterexample :
    (deriveTable tblC8mix).hoursDays = [1, 2] ∧
    (deriveTable tblC8mix).rows.map DRow.hours = [[some 900, some 700]] ∧
    hoursFor "09:00 AM" "05:00 PM" = some 800 ∧ (900 : ℤ) ≠ 800 := by decide

/-- C8 (amended): the in/out columns are paired positionally
(`zip(in_cols, out_cols)`), and each created hours column carries the
day-index suffix of its in-column.  Whenever the out-column suffix
sequence coincides with the in-column suffix sequence, the hours column
for day `k` is therefore computed from the pair `(in_k, out_k)`. -/
theorem c8_amended_positional_pairing (t : Table) (r : Row) (i k : Nat)
    (inS outS : String)
    (heq : t.inDays = t.outDays)
    (hk : t.inDays[i]? = some k)
    (hin : r.inVals[i]? = some inS) (hout : r.outVals[i]? = some outS) :
    (deriveTable t).hoursDays[i]? = some k ∧
    (deriveRow r).hours[i]? = some (hoursFor inS outS) := by
  constructor
  · show ((t.inDays.zip t.outDays).map Prod.fst)[i]? = some k
    have hz : (t.inDays.zip t.outDays)[i]? = some (k, k) :=
      List.getElem?_zip_eq_some.mpr ⟨hk, heq ▸ hk⟩
    rw [List.getElem?_map, hz]
    rfl
  · show ((r.inVals.zip r.outVals).map fun p => hoursFor p.1 p.2)[i]? = _
    have hz : (r.inVals.zip r.outVals)[i]? = some (inS, outS) :=
      List.getElem?_zip_eq_some.mpr ⟨hin, hout⟩
    rw [List.getElem?_map, hz]
    rfl

/-- Witness for C8 (amended) on `tblC8par`, whose in and out suffix
sequences agree: day 1's hours column is derived from the day-1 pair. -/
theorem c8_amended_witness :
    (deriveTable tblC8par).hoursDays[0]? = some 1 ∧
    (deriveRow rowC8).hours[0]? = some (hoursFor "09:00 AM" "06:00 PM") :=
  c8_amended_positional_pairing tblC8par rowC8 0 1 "09:00 AM" "06:00 PM"
    rfl (by decide) (by decide) (by decide)

/-- Concrete one-row table for the C7 scenario. -/
def tblC7 : Table :=
  { inDays := [1], outDays := [1]
    rows := [{ employee_id := "E7", employee_gender := "F"
               employee_resident := "Local", employee_department := "IT"
               inVals := ["02:00 PM"], outVals := ["09:00 AM"] }] }

/-- C7: the documented negative-hours scenario: `in_1 = "02:00 PM"`,
`out_1 = "09:00 AM"`; both endpoints parse and the derived value for
day 1 is `some (-500)` hundredths, i.e. exactly `-5.0` hours, retained
as produced by subtraction with no day-rollover correction. -/
theorem c7_negative_scenario_minus_5 :
    (deriveTable tblC7).rows.map DRow.hours = [[some (-500)]] ∧
    ((-500 : ℤ) : ℚ) / 100 = -5 := by
  refine ⟨by decide, by norm_num⟩

/-! ### Duplicate-resolver claims -/

theorem leTotal_total (a b : DRow) : leTotal a b = true ∨ leTotal b a = true := by
  unfold leTotal
  rcases le_total (rowTotal b) (rowTotal a) with h | h
  · left
    exact decide_eq_true h
  · right
    exact decide_eq_true h

theorem leTotal_trans (a b c : DRow) :
    leTotal a b = true → leTotal b c = true → leTotal a c = true := by
  unfold leTotal
  intro h1 h2
  exact decide_eq_true (le_trans (of_decide_eq_true h2) (of_decide_eq_true h1))

theorem dedupRows_empid_nodup (l : List DRow) :
    ((dedupRows l).map DRow.employee_id).Nodup :=
  dedupKey_keys_nodup _

theorem dedupRows_nodup (l : List DRow) : (dedupRows l).Nodup := by
  have h1 : (dedupKey (fun r => r) l).Nodup := by
    have h := @dedupKey_keys_nodup DRow DRow _ (fun r => r) l
    simpa using h
  have h2 : (sortBy leTotal (dedupKey (fun r => r) l)).Nodup :=
    ((sortBy_perm _).nodup_iff).mpr h1
  exact h2.sublist (dedupKey_sublist _)

theorem dedupRows_pairwise (l : List DRow) :
    (dedupRows l).Pairwise (fun a b => leTotal a b = true) :=
  (sortBy_pairwise leTotal_total leTotal_trans _).sublist (dedupKey_sublist _)

theorem mem_of_mem_dedupRows {l : List DRow} {r : DRow} (h : r ∈ dedupRows l) :
    r ∈ l := by
  have h1 : r ∈ sortBy leTotal (dedupKey (fun r => r) l) :=
    (dedupKey_sublist _).mem h
  have h2 : r ∈ dedupKey (fun r => r) l := (sortBy_perm _).mem_iff.mp h1
  exact (dedupKey_sublist _).mem h2

theorem dedupRows_idempotent (l : List DRow) :
    dedupRows (dedupRows l) = dedupRows l := by
  have hnd : (dedupRows l).Nodup := dedupRows_nodup l
  have hpw := dedupRows_pairwise l
  have hids := dedupRows_empid_nodup l
  show dedupKey (fun r => r.employee_id)
      (sortBy leTotal (dedupKey (fun r => r) (dedupRows l))) = dedupRows l
  rw [@dedupKey_eq_self DRow DRow _ (fun r => r) _ (by simpa using hnd),
    sortBy_of_pairwise hpw, dedupKey_eq_self hids]

/-- C9: the Duplicate Resolver is idempotent: applied to its own output
it returns the same table (same rows in the same order, same columns). -/
theorem c9_dedup_resolver_idempotent (t : DTable) :
    dedupTable (dedupTable t) = dedupTable t := by
  show ({ hoursDays := t.hoursDays, rows := dedupRows (dedupRows t.rows) } : DTable)
      = { hoursDays := t.hoursDays, rows := dedupRows t.rows }
  rw [dedupRows_idempotent]

theorem filter_take_one_of_find? {α : Type} {p : α → Bool} :
    ∀ {l : List α} {k : α}, l.find? p = some k → (l.filter p).take 1 = [k] := by
  intro l
  induction l with
  | nil => intro k h; cases h
  | cons a l ih =>
    intro k h
    by_cases hpa : p a
    · rw [List.find?_cons_of_pos _ hpa] at h
      cases h
      rw [List.filter_cons_of_pos hpa, List.take_succ_cons, List.take_zero]
    · rw [List.find?_cons_of_neg _ hpa] at h
      rw [List.filter_cons_of_neg hpa]
      exact ih h

/-- C4: after exact full-row duplicates are removed, the resolver keeps,
for every employee identifier `e` present, exactly one row: a row `k`
whose total derived hours (absent cells as 0) is maximal among the rows
with that identifier, and which strictly beats every earlier row with
that identifier (so ties go to the first-encountered row).  Every
retained row is a row of the input — in particular the helper total is
never part of a retained row. -/
theorem c4_duplicate_resolver (l : List DRow) (e : String)
    (he : e ∈ (dedupKey (fun r => r) l).map DRow.employee_id) :
    (∀ r ∈ dedupRows l, r ∈ l) ∧
    ∃ k l₁ l₂,
      (dedupRows l).filter (fun r => decide (r.employee_id = e)) = [k] ∧
      dedupKey (fun r => r) l = l₁ ++ k :: l₂ ∧
      (∀ r ∈ dedupKey (fun r => r) l, r.employee_id = e →
        rowTotal r ≤ rowTotal k) ∧
      (∀ r ∈ l₁, r.employee_id = e → rowTotal r < rowTotal k) := by
  refine ⟨fun r hr => mem_of_mem_dedupRows hr, ?_⟩
  have hfind : (sortBy leTotal (dedupKey (fun r => r) l)).find?
      (fun r => decide (r.employee_id = e)) =
      firstBest leTotal (fun r => decide (r.employee_id = e))
        (dedupKey (fun r => r) l) :=
    find?_sortBy leTotal_total leTotal_trans _
  obtain ⟨r0, hr0, hr0e⟩ := List.mem_map.mp he
  cases hfb : firstBest leTotal (fun r => decide (r.employee_id = e))
      (dedupKey (fun r => r) l) with
  | none =>
    have := firstBest_eq_none hfb r0 hr0
    rw [decide_eq_false_iff_not] at this
    exact absurd hr0e this
  | some k =>
    obtain ⟨hpk, hbest, l₁, l₂, hdec, hstrict⟩ :=
      firstBest_spec leTotal_total leTotal_trans hfb
    refine ⟨k, l₁, l₂, ?_, hdec, ?_, ?_⟩
    · rw [dedupRows, filter_dedupKey]
      exact filter_take_one_of_find? (hfind.trans hfb)
    · intro r hr hre
      have h := hbest r hr (decide_eq_true hre)
      exact of_decide_eq_true h
    · intro r hr hre
      have h := hstrict r hr (decide_eq_true hre)
      have h' : ¬ rowTotal k ≤ rowTotal r := by
        intro hle
        rw [(by exact decide_eq_true hle : leTotal r k = true)] at h
        cases h
      exact lt_of_not_le h'

/-- The two C4 witness rows: both for employee `E2`, with total derived
hours 7.00 and 9.00 respectively. -/
def rowC4a : DRow :=
  { employee_id := "E2", employee_gender := "M"
    employee_resident := "Local", employee_department := "HR"
    inVals := ["09:00 AM"], outVals := ["04:00 PM"], hours := [some 700] }

def rowC4b : DRow :=
  { employee_id := "E2", employee_gender := "M"
    employee_resident := "Local", employee_department := "HR"
    inVals := ["09:00 AM"], outVals := ["06:00 PM"], hours := [some 900] }

/-- Witness for C4 on the spec's `E2` scenario, plus a direct evaluation:
the resolver keeps exactly the 9.00-hours row. -/
theorem c4_witness :
    ((∀ r ∈ dedupRows [rowC4a, rowC4b], r ∈ [rowC4a, rowC4b]) ∧
      ∃ k l₁ l₂,
        (dedupRows [rowC4a, rowC4b]).filter
          (fun r => decide (r.employee_id = "E2")) = [k] ∧
        dedupKey (fun r => r) [rowC4a, rowC4b] = l₁ ++ k :: l₂ ∧
        (∀ r ∈ dedupKey (fun r => r) [rowC4a, rowC4b], r.employee_id = "E2" →
          rowTotal r ≤ rowTotal k) ∧
        (∀ r ∈ l₁, r.employee_id = "E2" → rowTotal r < rowTotal k)) ∧
    dedupRows [rowC4a, rowC4b] = [rowC4b] :=
  ⟨c4_duplicate_resolver [rowC4a, rowC4b] "E2" (by decide), by decide⟩

/-! ### Reshaper claims -/

theorem map_fst_zip_eq_take {γ δ : Type} :
    ∀ (l₁ : List γ) (l₂ : List δ),
      (l₁.zip l₂).map Prod.fst = l₁.take l₂.length := by
  intro l₁
  induction l₁ with
  | nil => intro l₂; simp
  | cons a l ih =>
    intro l₂
    cases l₂ with
    | nil => simp
    | cons b l₂ => simp [List.zip_cons_cons, ih]

theorem factsFor_length (start : ℤ) (t : DTable) :
    (factsFor start t).length = t.hoursDays.length * t.rows.length := by
  unfold factsFor
  rw [List.length_flatMap]
  have hmap : ∀ d : Nat,
      (t.rows.map fun r =>
        ({ employee_id := r.employee_id
           employee_gender := r.employee_gender
           employee_resident := r.employee_resident
           employee_department := r.employee_department
           day_num := d
           date := start + (d : ℤ) - 1
           hours_worked := ((t.hoursDays.zip r.hours).lookup d).getD none
           is_punctual :=
             isPunctual (((t.hoursDays.zip r.hours).lookup d).getD none) }
          : Fact)).length = t.rows.length := fun d => List.length_map ..
  calc ((sortBy natLe t.hoursDays).map fun d => (t.rows.map _).length).sum
      = ((sortBy natLe t.hoursDays).map fun _ => t.rows.length).sum := by
        refine congrArg List.sum (List.map_congr_left ?_)
        intro d _
        exact hmap d
    _ = (sortBy natLe t.hoursDays).length * t.rows.length := by
        rw [List.map_const', List.sum_replicate, smul_eq_mul]
    _ = t.hoursDays.length * t.rows.length := by
        rw [(sortBy_perm t.hoursDays).length_eq]

theorem day_num_mem_factsFor {start : ℤ} {t : DTable} {f : Fact}
    (hf : f ∈ factsFor start t) : f.day_num ∈ t.hoursDays := by
  obtain ⟨d, hd, hf'⟩ := List.mem_flatMap.mp hf
  obtain ⟨r, _, rfl⟩ := List.mem_map.mp hf'
  exact (sortBy_perm t.hoursDays).mem_iff.mp hd

theorem mem_factsFor_of_day {start : ℤ} {t : DTable} {d : Nat}
    (hd : d ∈ t.hoursDays) (hne : t.rows ≠ []) :
    ∃ f ∈ factsFor start t, f.day_num = d := by
  obtain ⟨r, hr⟩ := List.exists_mem_of_ne_nil t.rows hne
  refine ⟨_, List.mem_flatMap.mpr
    ⟨d, (sortBy_perm t.hoursDays).mem_iff.mpr hd,
      List.mem_map.mpr ⟨r, hr, rfl⟩⟩, rfl⟩

/-- C5: for a well-formed upload (pairwise-distinct `in_` suffixes and a
non-empty row set), the reshaper emits exactly
(#distinct employees after deduplication) × (#distinct day indices among
the hours columns) fact rows, and the set of day indices appearing in the
output is exactly the set of hours-column suffixes. -/
theorem c5_reshaper_row_count (t : Table) (start : ℤ)
    (hnodup : t.inDays.Nodup) (hne : t.rows ≠ []) :
    (factsFor start (dedupTable (deriveTable t))).length =
      ((dedupTable (deriveTable t)).rows.map DRow.employee_id).dedup.length *
        (deriveTable t).hoursDays.dedup.length ∧
    (∀ d : Nat,
      d ∈ (factsFor start (dedupTable (deriveTable t))).map Fact.day_num ↔
        d ∈ (deriveTable t).hoursDays) := by
  have hdays_nodup : (deriveTable t).hoursDays.Nodup := by
    show ((t.inDays.zip t.outDays).map Prod.fst).Nodup
    rw [map_fst_zip_eq_take]
    exact hnodup.sublist (List.take_sublist _ _)
  have hids_nodup := dedupRows_empid_nodup (deriveTable t).rows
  have hrows_ne : (dedupTable (deriveTable t)).rows ≠ [] := by
    show dedupRows (deriveTable t).rows ≠ []
    have h1 : (deriveTable t).rows ≠ [] := by
      show t.rows.map deriveRow ≠ []
      simpa using hne
    have h2 : sortBy leTotal (dedupKey (fun r => r) (deriveTable t).rows) ≠ [] := by
      intro hnil
      have hlen := (@sortBy_perm DRow leTotal
        (dedupKey (fun r => r) (deriveTable t).rows)).length_eq
      rw [hnil] at hlen
      exact dedupKey_ne_nil h1 (List.length_eq_zero.mp hlen.symm)
    exact dedupKey_ne_nil h2
  constructor
  · rw [factsFor_length]
    have h1 : ((dedupTable (deriveTable t)).rows.map DRow.employee_id).dedup
        = (dedupTable (deriveTable t)).rows.map DRow.employee_id :=
      List.dedup_eq_self.mpr hids_nodup
    have h2 : (deriveTable t).hoursDays.dedup = (deriveTable t).hoursDays :=
      List.dedup_eq_self.mpr hdays_nodup
    rw [h1, h2, List.length_map]
    exact Nat.mul_comm _ _
  · intro d
    constructor
    · intro hd
      obtain ⟨f, hf, rfl⟩ := List.mem_map.mp hd
      have h := day_num_mem_factsFor hf
      simpa [dedupTable] using h
    · intro hd
      have hd' : d ∈ (dedupTable (deriveTable t)).hoursDays := by
        simpa [dedupTable] using hd
      obtain ⟨f, hf, hfd⟩ := mem_factsFor_of_day hd' hrows_ne
      exact List.mem_map.mpr ⟨f, hf, hfd⟩

/-- Concrete two-row, two-day table for the C5 witness. -/
def tblC5 : Table :=
  { inDays := [1, 2], outDays := [1, 2]
    rows := [{ employee_id := "E1", employee_gender := "M"
               employee_resident := "Local", employee_department := "IT"
               inVals := ["09:00 AM", "09:00 AM"]
               outVals := ["05:00 PM", "06:00 PM"] },
             { employee_id := "E2", employee_gender := "F"
               employee_resident := "Non-local", employee_department := "HR"
               inVals := ["10:00 AM", "08:00 AM"]
               outVals := ["05:00 PM", "04:00 PM"] }] }

/-- Witness for C5 on `tblC5`: 2 employees × 2 day indices = 4 facts,
and the output day indices are exactly the suffixes 1 and 2. -/
theorem c5_witness :
    ((factsFor 0 (dedupTable (deriveTable tblC5))).length =
      ((dedupTable (deriveTable tblC5)).rows.map DRow.employee_id).dedup.length *
        (deriveTable tblC5).hoursDays.dedup.length ∧
    (∀ d : Nat,
      d ∈ (factsFor 0 (dedupTable (deriveTable tblC5))).map Fact.day_num ↔
        d ∈ (deriveTable tblC5).hoursDays)) ∧
    (factsFor 0 (dedupTable (deriveTable tblC5))).length = 4 :=
  ⟨c5_reshaper_row_count tblC5 0 (by decide) (by decide), by decide⟩

/-! ### Filter-layer claim -/

/-- C10: with a residency selection other than "All", a fact row survives
the filter block iff it passes the date-range check, the employee check
(exact equality unless "All"), the department check (exact membership
unless the selection is empty), and its lower-cased residency equals the
lower-cased selection — the residency comparison alone is
case-insensitive. -/
theorem c10_residency_filter_case_insensitive
    (d0 d1 : ℤ) (selEmp selRes : String) (selDeps : List String)
    (facts : List Fact) (hres : selRes ≠ "All") (f : Fact) :
    f ∈ applyFilters d0 d1 selEmp selRes selDeps facts ↔
      f ∈ facts ∧ (d0 ≤ f.date ∧ f.date ≤ d1) ∧
        (selEmp = "All" ∨ f.employee_id = selEmp) ∧
        strLower f.employee_resident = strLower selRes ∧
        (selDeps = [] ∨ f.employee_department ∈ selDeps) := by
  unfold applyFilters
  by_cases hemp : selEmp = "All" <;> by_cases hdeps : selDeps = [] <;>
    simp [hemp, hdeps, hres, List.mem_filter] <;> tauto

/-- Concrete fact row for the C10 witness, with residency `"local"` in
lower case. -/
def factC10 : Fact :=
  { employee_id := "E1", employee_gender := "M"
    employee_resident := "local", employee_department := "IT"
    day_num := 1, date := 5, hours_worked := some 850, is_punctual := true }

/-- Witness for C10: the row whose stored residency is `"local"` is
selected by the filter value `"Local"` (and indeed survives filtering). -/
theorem c10_witness :
    (factC10 ∈ applyFilters 0 10 "All" "Local" [] [factC10] ↔
      factC10 ∈ [factC10] ∧ ((0 : ℤ) ≤ factC10.date ∧ factC10.date ≤ 10) ∧
        (("All" : String) = "All" ∨ factC10.employee_id = "All") ∧
        strLower factC10.employee_resident = strLower "Local" ∧
        (([] : List String) = [] ∨ factC10.employee_department ∈ ([] : List String))) ∧
    factC10 ∈ applyFilters 0 10 "All" "Local" [] [factC10] :=
  ⟨c10_residency_filter_case_insensitive 0 10 "All" "Local" [] [factC10]
      (by decide) factC10,
    by decide⟩

/-! ### Control-flow model of the whole script for schema claims

The claims about schema validation quantify over malformed uploads, so
they need a model that does not assume the mandatory columns exist.
`GTable` is a general frame: a column-name list plus rows of cells (raw
string cells and derived numeric cells).  `runPipeline` models the
script's top level from the derivation loop (line 116) to the reshaped
`df_long` (line 159): a missing column surfaces exactly where pandas
would raise a `KeyError` (`df['employee_id']` at line 133, melt id_vars
at line 151), a non-numeric `hours_` suffix where `int()` would raise a
`ValueError` (line 150), and there is no validation step of any kind. -/

inductive Cell where
  | str : String → Cell
  | num : Option ℤ → Cell
deriving DecidableEq

structure GTable where
  cols : List String
  rows : List (List Cell)
deriving DecidableEq

inductive PipeError where
  | keyErr : String → PipeError
  | valueErr : PipeError
deriving DecidableEq

/-- `startswith` on column names, structurally on the character lists. -/
def strStarts (s p : String) : Bool := p.data.isPrefixOf s.data

/-- `col.replace('in_', 'hours_')`: left-to-right, non-overlapping. -/
def replaceInAux : List Char → List Char
  | [] => []
  | 'i' :: 'n' :: '_' :: cs =>
    'h' :: 'o' :: 'u' :: 'r' :: 's' :: '_' :: replaceInAux cs
  | c :: cs => c :: replaceInAux cs

def replaceInHours (s : String) : String := ⟨replaceInAux s.data⟩

/-- `pd.to_datetime(_, format='%I:%M %p', errors='coerce')` on a cell:
only string cells can parse. -/
def cellParse : Cell → Option Nat
  | .str s => parseTime s
  | .num _ => none

/-- One derived cell from an in-cell and an out-cell (lines 121-125). -/
def hoursFromCells (cin cout : Cell) : Cell :=
  match cellParse cin, cellParse cout with
  | some a, some b => .num (some (hundredths ((b : ℤ) - (a : ℤ))))
  | _, _ => .num none

/-- Position of a column name in the frame, `none` when absent. -/
def colIdx (cols : List String) (c : String) : Option Nat :=
  cols.findIdx? fun x => x == c

/-- Column assignment `df[name] = vals`: overwrite in place when the
column exists, append a new column otherwise. -/
def setCol (t : GTable) (name : String) (vals : List Cell) : GTable :=
  match colIdx t.cols name with
  | some i =>
    { cols := t.cols, rows := (t.rows.zip vals).map fun rv => rv.1.set i rv.2 }
  | none =>
    { cols := t.cols ++ [name], rows := (t.rows.zip vals).map fun rv => rv.1 ++ [rv.2] }

/-- The derived column for one positional in/out column pair. -/
def gPairVals (t : GTable) (ic oc : String) : List Cell :=
  t.rows.map fun row =>
    hoursFromCells (row.getD ((colIdx t.cols ic).getD 0) (Cell.num none))
      (row.getD ((colIdx t.cols oc).getD 0) (Cell.num none))

/-- The derivation loop (lines 116-125) on a general frame: discover the
`in_`/`out_` columns by prefix, pair them positionally with `zip`, and
assign one `hours_` column per pair. -/
def gDerive (t : GTable) : GTable :=
  ((t.cols.filter fun c => strStarts c "in_").zip
      (t.cols.filter fun c => strStarts c "out_")).foldl
    (fun acc pr => setCol acc (replaceInHours pr.1) (gPairVals acc pr.1 pr.2)) t

/-- Indices of the `hours_` columns. -/
def hoursIdxs (cols : List String) : List Nat :=
  (cols.enum.filter fun pr => strStarts pr.2 "hours_").map Prod.fst

/-- `df[[hours cols]].sum(axis=1)`: absent cells count as zero. -/
def gRowTotal (hIdxs : List Nat) (row : List Cell) : ℤ :=
  (hIdxs.map fun i =>
    match row.getD i (Cell.num none) with
    | Cell.num (some z) => z
    | _ => 0).sum

def leGTotal (hIdxs : List Nat) (a b : List Cell) : Bool :=
  decide (gRowTotal hIdxs b ≤ gRowTotal hIdxs a)

/-- The duplicate-handling block (lines 132-142) on a general frame: the
first column access `df['employee_id']` raises a `KeyError` when that
column is absent — there is no schema check before it. -/
def gDedup (t : GTable) : Except PipeError GTable :=
  match colIdx t.cols "employee_id" with
  | none => .error (.keyErr "employee_id")
  | some idIdx =>
    .ok { cols := t.cols
          rows := dedupKey (fun row => row.getD idIdx (Cell.num none))
            (sortBy (leGTotal (hoursIdxs t.cols))
              (dedupKey (fun r => r) t.rows)) }

structure GFact where
  employee_id : Cell
  employee_gender : Cell
  employee_resident : Cell
  employee_department : Cell
  day_num : Nat
  date : ℤ
  hours_worked : Cell
  is_punctual : Bool
deriving DecidableEq

/-- `int(col.split('_')[1])` used as the sort key at line 150:
the second `_`-separated group parsed as a number. -/
def suffixNat (c : String) : Option Nat :=
  match splitOnChar '_' c.data with
  | _ :: snd :: _ => digitsToNat snd
  | _ => none

/-- The reshaping block (lines 150-159) on a general frame: `day_cols`
are the `hours_`-prefixed columns sorted by numeric suffix (`int()`
raises a `ValueError` on a non-numeric suffix), and `melt` raises a
`KeyError` when any of the four id columns is absent. -/
def gMelt (start : ℤ) (t : GTable) : Except PipeError (List GFact) :=
  match (t.cols.filter fun c => strStarts c "hours_").mapM
      (fun c => (suffixNat c).map fun n => (n, c)) with
  | none => Except.error PipeError.valueErr
  | some keyed =>
    match colIdx t.cols "employee_id", colIdx t.cols "employee_gender",
        colIdx t.cols "employee_resident", colIdx t.cols "employee_department" with
    | some iId, some iG, some iR, some iD =>
      Except.ok ((sortBy (fun a b => decide (a.1 ≤ b.1)) keyed).flatMap fun dc =>
        t.rows.map fun row =>
          { employee_id := row.getD iId (Cell.num none)
            employee_gender := row.getD iG (Cell.num none)
            employee_resident := row.getD iR (Cell.num none)
            employee_department := row.getD iD (Cell.num none)
            day_num := dc.1
            date := start + (dc.1 : ℤ) - 1
            hours_worked := row.getD ((colIdx t.cols dc.2).getD 0) (Cell.num none)
            is_punctual :=
              match row.getD ((colIdx t.cols dc.2).getD 0) (Cell.num none) with
              | Cell.num (some z) => decide (800 ≤ z)
              | _ => false })
    | _, _, _, _ => Except.error (PipeError.keyErr "id_vars")

/-- The script's data path from upload to `df_long` (lines 116-159). -/
def runPipeline (start : ℤ) (t : GTable) : Except PipeError (List GFact) :=
  match gDedup (gDerive t) with
  | Except.error e => Except.error e
  | Except.ok t2 => gMelt start t2

/-- A frame with the four mandatory columns and no in/out pair. -/
def tblC1 : GTable :=
  { cols := ["employee_id", "employee_gender", "employee_resident",
             "employee_department"]
    rows := [[Cell.str "E1", Cell.str "M", Cell.str "Local", Cell.str "IT"]] }

/-- C1 counterexample: `tblC1` has no in/out column pair, so the claim
demands the pipeline fail with a `SchemaError` before derivation; instead
the pipeline runs to completion with no error, returning an empty fact
list. -/
theorem c1_counterexample :
    (tblC1.cols.filter fun c => strStarts c "in_") = [] ∧
    runPipeline 0 tblC1 = Except.ok [] :=
  ⟨rfl, rfl⟩

theorem findIdx?_isSome_of_mem {l : List String} {a : String} (h : a ∈ l) :
    (l.findIdx? fun x => x == a).isSome := by
  cases hfi : l.findIdx? fun x => x == a with
  | some i => rfl
  | none =>
    rw [List.findIdx?_eq_none_iff] at hfi
    have hx := hfi a h
    simp at hx

/-- C1 (amended): the script performs no schema validation.  Any frame
that carries the four mandatory identity columns, has no pre-existing
`hours_` column, and lacks in-columns or out-columns (hence has no
in/out pair) is processed end to end with no failure of any kind,
yielding an empty fact table; conversely a frame missing `employee_id`
fails only at the duplicate-handling stage — after the whole hours
derivation has run — with a key error, not a schema error. -/
theorem c1_amended_no_schema_validation (start : ℤ) (t : GTable)
    (hid : "employee_id" ∈ t.cols)
    (hg : "employee_gender" ∈ t.cols)
    (hr : "employee_resident" ∈ t.cols)
    (hd : "employee_department" ∈ t.cols)
    (hh : ∀ c ∈ t.cols, strStarts c "hours_" = false)
    (hpair : (t.cols.filter fun c => strStarts c "in_") = [] ∨
             (t.cols.filter fun c => strStarts c "out_") = []) :
    runPipeline start t = Except.ok [] := by
  have hderive : gDerive t = t := by
    unfold gDerive
    rcases hpair with hp | hp
    · rw [hp]
      simp
    · rw [hp]
      simp
  obtain ⟨i1, hi1⟩ := Option.isSome_iff_exists.mp (findIdx?_isSome_of_mem hid)
  have hdedup : gDedup t = Except.ok
      { cols := t.cols
        rows := dedupKey (fun row => row.getD i1 (Cell.num none))
          (sortBy (leGTotal (hoursIdxs t.cols))
            (dedupKey (fun r => r) t.rows)) } := by
    unfold gDedup colIdx
    rw [hi1]
  have hdays : (t.cols.filter fun c => strStarts c "hours_") = [] := by
    rw [List.filter_eq_nil_iff]
    intro c hc
    simp [hh c hc]
  obtain ⟨i2, hi2⟩ := Option.isSome_iff_exists.mp (findIdx?_isSome_of_mem hg)
  obtain ⟨i3, hi3⟩ := Option.isSome_iff_exists.mp (findIdx?_isSome_of_mem hr)
  obtain ⟨i4, hi4⟩ := Option.isSome_iff_exists.mp (findIdx?_isSome_of_mem hd)
  have hmelt : ∀ R : List (List Cell),
      gMelt start { cols := t.cols, rows := R } = Except.ok [] := by
    intro R
    unfold gMelt colIdx
    simp only [hdays, List.mapM_nil, hi1, hi2, hi3, hi4]
    rfl
  unfold runPipeline
  rw [hderive, hdedup]
  exact hmelt _

/-- Witness for C1 (amended) at the concrete frame `tblC1`. -/
theorem c1_amended_witness : runPipeline 7 tblC1 = Except.ok [] :=
  c1_amended_no_schema_validation 7 tblC1 (by decide) (by decide) (by decide)
    (by decide) (by decide) (Or.inl (by decide))

end Attendance
